import Mathlib

/-!
Verification of the GHOST local-search engine.

Shallow embedding of the GHOST metaheuristic solver (the `Solver` template of
`solver.hpp`, the older `solver.cpp`, and `objective.cpp`) together with proofs
about the claims of the specification.

Modelling conventions:

* Costs and errors are C++ `double`s used only through sums, differences,
  comparisons with each other and with `0`, and unary negation.  They are
  embedded as exact integers (`Int`); `std::numeric_limits<double>::max()`,
  which only acts as a sentinel larger than every reachable cost, is embedded
  as `⊤` in `WithTop Int`.  Floating-point rounding is outside the claims
  under study.
* The random generator is embedded as a tape of natural-number draws
  (`Tape`).  `rng.pick(v)` reads one draw `t` and returns `v[t % v.size()]`;
  `rng.uniform(0.0,1.0) < 0.1` reads one draw `t` and is the boolean
  `t % 10 == 0`; `rng.uniform(0,1) == 0` reads one draw and is `t % 2 == 0`.
  Which concrete residues encode the outcomes is irrelevant to the claims;
  the tape only fixes a deterministic run, as the specification's
  determinism section demands.
* The wall-clock budget is embedded as an iteration budget (`fuel`), the
  iteration-count-equivalent reproduction sanctioned by the specification.
* `variable.hpp` is not part of the sources.  Modelled from the spec:
  a `Variable` holds a current integer value, a finite explicit domain and,
  in permutation mode, an index; `set_value`/`get_value` read and write the
  current value, `pick_random_value` draws uniformly from the domain, and
  the engine swaps the `(index, value)` pair of two vars directly.
* Constraints read the live assignment: `update_variable` broadcasts are
  cache maintenance with no observable effect in this embedding, and
  `Constraint::error` is a function of the full assignment.
  `Constraint::simulate_delta` is the user-supplied delta oracle and is kept
  abstract (an arbitrary function of the assignment, the variable and the
  candidate value).
* `std::map<int, ...> delta_errors` iterates in ascending key order; the
  embedding explores `domain_to_explore` in list order, which coincides with
  the source whenever the domain list is sorted and duplicate-free (the case
  for `get_full_domain` of a range domain, and for every concrete model
  below).
-/

/-- A finite tape of pseudo-random draws; reading past the end yields `0`. -/
abbrev Tape := List Nat

/-- Read one draw from the tape. -/
def draw (tp : Tape) : Nat × Tape := (tp.headD 0, tp.tail)

/-- Embeds `rng.pick(container)`: one draw selects an element of `l`. -/
def pick {α : Type} [Inhabited α] (l : List α) (t : Nat) : α :=
  l.getD (t % l.length) default

/-- Embeds `rng.uniform(0.0, 1.0) < 0.1`, embedded on one tape draw. -/
def coin (t : Nat) : Bool := t % 10 == 0

/-- Sum of the entries of `l` at the positions in `idxs` (missing entries count 0). -/
def sumIdx (l : List Int) (idxs : List Nat) : Int :=
  (idxs.map (fun i => l.getD i 0)).sum

/-- The minimum scan the GHOST sources use repeatedly (with `bestCost` starting
at `std::numeric_limits<double>::max()`): walk `l`, keep the list of elements
achieving the least `f` value so far together with that value. -/
def min_scan {α : Type} (f : α → Int) (l : List α) : List α × WithTop Int :=
  l.foldl
    (fun acc x =>
      if acc.2 > (f x : WithTop Int) then ([x], (f x : WithTop Int))
      else if acc.2 = (f x : WithTop Int) then (acc.1 ++ [x], acc.2)
      else acc)
    ([], ⊤)

/-- The ordered pairs `(i, j)` with `i < j < n`, as visited by the two nested
loops of `random_permutations`. -/
def pairList (n : Nat) : List (Nat × Nat) :=
  (List.range n).flatMap (fun i => ((List.range n).drop (i + 1)).map (fun j => (i, j)))

namespace Ghost

/-- A constraint as the engine of `solver.hpp` (src/unnamed/part_000) sees it:
its scope (`get_variable_ids`), its `error` on the live assignment, and the
user-supplied `simulate_delta` oracle. -/
structure Constraint where
  scope : List Nat
  error : List Int → Int
  simulate_delta : List Int → Nat → Int → Int

instance : Inhabited Constraint := ⟨⟨[], fun _ => 0, fun _ _ _ => 0⟩⟩

/-- A problem instance as held by the `Solver` of src/unnamed/part_000 after
construction: variable domains, constraints, the objective (`NullObjective`,
i.e. constant `0`, when none is given: then `is_optimization = false`), and
the permutation flag of the neighborhood. -/
structure Model where
  domains : List (List Int)
  constraints : List Constraint
  is_optimization : Bool
  objective : List Int → Int
  permutation_problem : Bool

/-- Embeds `_number_variables`. -/
def Model.nvar (m : Model) : Nat := m.domains.length

/-- Embeds `_matrix_var_ctr[v]`, built at construction: the ids of the constraints
whose scope contains `v` (`has_variable`). -/
def matrix_var_ctr (m : Model) (v : Nat) : List Nat :=
  (List.range m.constraints.length).filter
    (fun i => decide (v ∈ (m.constraints.getD i default).scope))

/-- The mutable engine state of the `Solver` of src/unnamed/part_000.
`objective_cache` is the assignment last broadcast to the objective via
`Objective::update_variable`; `final_solution` is the caller's out-parameter
holding the best assignment snapshot. -/
structure State where
  vars : List Int
  indexes : List Nat
  error_constraints : List Int
  error_variables : List Int
  error_non_tabu_variables : List Int
  weak_tabu_list : List Int
  best_sat_error : WithTop Int
  best_opt_cost : WithTop Int
  best_sat_error_opt_loop : WithTop Int
  current_sat_error : Int
  current_opt_cost : WithTop Int
  objective_cache : List Int
  no_random_starting_point : Bool
  free_variables : Bool
  final_solution : List Int
deriving DecidableEq, Inhabited

/-- Embeds `call_error( constraint_id )` on an assignment. -/
def call_error (m : Model) (vars : List Int) (i : Nat) : Int :=
  (m.constraints.getD i default).error vars

/-- Embeds `monte_carlo_sampling()`: each variable picks a uniform random value of its
domain (one tape draw per variable, in variable order). -/
def monte_carlo_sampling (m : Model) (st : State) (tp : Tape) : State × Tape :=
  (List.range m.nvar).foldl
    (fun acc v =>
      let d := draw acc.2
      ({ acc.1 with vars := acc.1.vars.set v (pick (m.domains.getD v []) d.1) },
       d.2))
    (st, tp)

/-- Embeds `std::swap(l[i], l[j])`. -/
def swapAt2 {α : Type} [Inhabited α] (l : List α) (i j : Nat) : List α :=
  (l.set i (l.getD j default)).set j (l.getD i default)

/-- Embeds `random_permutations()` of src/unnamed/part_000: for every pair
`(i, j)`, `i < j`, one tape draw decides (50%) whether to swap
`(_index, _current_value)` of the two vars. -/
def random_permutations (m : Model) (st : State) (tp : Tape) : State × Tape :=
  (pairList m.nvar).foldl
    (fun acc ij =>
      let d := draw acc.2
      if d.1 % 2 == 0 then
        ({ acc.1 with
            indexes := swapAt2 acc.1.indexes ij.1 ij.2,
            vars := swapAt2 acc.1.vars ij.1 ij.2 }, d.2)
      else (acc.1, d.2))
    (st, tp)

/-- One sampling of `set_initial_configuration`. -/
def sample_once (m : Model) (st : State) (tp : Tape) : State × Tape :=
  if m.permutation_problem then random_permutations m st tp
  else monte_carlo_sampling m st tp

/-- The sampling loop of `set_initial_configuration` of src/unnamed/part_000.
The source line `best_sat_cost = current_sat_cost;` names two identifiers that
are declared nowhere (the acknowledged typo), so the local `best_sat_error`
tracking the best sample is never updated: it stays at its initial
`std::numeric_limits<double>::max()` and the guard `best_sat_error >
current_sat_error` holds at every sample. -/
def sampling_loop (m : Model) :
    Nat → State → Tape → WithTop Int → List Int → State × Tape × List Int
  | 0, st, tp, _, best_values => (st, tp, best_values)
  | k + 1, st, tp, best_sat_error, best_values =>
    let s := sample_once m st tp
    let current_sat_error : Int :=
      ((List.range m.constraints.length).map (fun i => call_error m s.1.vars i)).sum
    let best_values' :=
      if best_sat_error > (current_sat_error : WithTop Int) then s.1.vars
      else best_values
    if current_sat_error = 0 then (s.1, s.2, best_values')
    else sampling_loop m k s.1 s.2 best_sat_error best_values'

/-- Embeds `set_initial_configuration( samplings )` of src/unnamed/part_000. -/
def set_initial_configuration (m : Model) (st : State) (samplings : Int) (tp : Tape) :
    State × Tape :=
  if ¬m.permutation_problem = true ∧ samplings ≤ 1 then
    monte_carlo_sampling m st tp
  else
    let r := sampling_loop m (max 1 samplings).toNat st tp ⊤ (List.replicate m.nvar 0)
    ({ r.1 with vars := r.2.2 }, r.2.1)

/-- Embeds `compute_constraints_errors()` fills `_error_constraints`; its return value
is the sum of the filled entries. -/
def compute_constraints_errors (m : Model) (vars : List Int) : List Int :=
  (List.range m.constraints.length).map (fun i => call_error m vars i)

/-- Embeds `compute_variables_errors()` from zeroed `_error_variables`. -/
def compute_variables_errors (m : Model) (errc : List Int) : List Int :=
  (List.range m.nvar).map (fun v => sumIdx errc (matrix_var_ctr m v))

/-- Embeds `restart()` of src/unnamed/part_000 (lines 195-230). -/
def restart (m : Model) (st : State) (tp : Tape) : State × Tape :=
  let st0 : State := { st with
    best_sat_error := ⊤
    best_opt_cost := ⊤
    best_sat_error_opt_loop := ⊤
    weak_tabu_list := List.replicate m.nvar 0 }
  let s :=
    if ¬st0.no_random_starting_point = true then set_initial_configuration m st0 10 tp
    else ({ st0 with no_random_starting_point := false }, tp)
  let errc := compute_constraints_errors m s.1.vars
  ({ s.1 with
      error_constraints := errc
      current_sat_error := errc.sum
      error_variables := compute_variables_errors m errc
      error_non_tabu_variables := compute_variables_errors m errc
      free_variables := true }, s.2)

/-- Embeds `*std::max_element(l.begin(), l.end())` (unspecified on an empty vector;
the embedding returns `0` there). -/
def max_element (l : List Int) : Int :=
  match l with
  | [] => 0
  | x :: xs => xs.foldl max x

/-- Embeds `compute_worst_variables()` of src/unnamed/part_000 (lines 265-303): all
variable ids whose `_error_variables` entry equals the maximum entry. -/
def compute_worst_variables (m : Model) (st : State) : List Nat :=
  (List.range m.nvar).filter
    (fun v => decide (st.error_variables.getD v 0 = max_element st.error_variables))

/-- The per-constraint simulated deltas `delta_errors[x]` for variable `v`,
in `_matrix_var_ctr[v]` order. -/
def delta_list (m : Model) (vars : List Int) (v : Nat) (x : Int) : List Int :=
  (matrix_var_ctr m v).map
    (fun i => (m.constraints.getD i default).simulate_delta vars v x)

/-- Lines 571-588: scan the cumulated delta map, keeping the values achieving
the minimum (`candidate_values`) and the minimum itself (`min_conflict`,
initially `std::numeric_limits<double>::max()`). -/
def select_candidates (dom : List Int) (cumulated : Int → Int) : List Int × WithTop Int :=
  min_scan cumulated dom

/-- The incremental cache update of the apply block (lines 671-680): for the
`delta_index`-th constraint `i` of `_matrix_var_ctr[v]` with memoized delta
`d`, do `error_constraints[i] += d` and, for every `u` in the scope of `i`,
`error_variables[u] += d`. -/
def apply_deltas (m : Model) (ds : List (Nat × Int)) (errc errv : List Int) :
    List Int × List Int :=
  ds.foldl
    (fun acc p =>
      ((acc.1.set p.1 (acc.1.getD p.1 0 + p.2)),
       ((m.constraints.getD p.1 default).scope).foldl
         (fun ev u => ev.set u (ev.getD u 0 + p.2)) acc.2))
    (errc, errv)

/-- The apply block of `solve` (lines 664-694): add `min_conflict` to
`_current_sat_error`, set the variable, replay the memoized deltas into
`_error_constraints` / `_error_variables`, snapshot `final_solution` when the
new `_current_sat_error` beats `_best_sat_error`, and refresh the objective.
`ds` is the memoized `delta_errors.at(new_value)` (computed before any
restart of the same iteration). -/
def apply_local_changes (m : Model) (st : State) (v : Nat) (new_value : Int)
    (min_conflict : Int) (ds : List Int) : State :=
  let st1 := { st with
    current_sat_error := st.current_sat_error + min_conflict
    vars := st.vars.set v new_value }
  let r := apply_deltas m ((matrix_var_ctr m v).zip ds) st1.error_constraints
    st1.error_variables
  let st2 := { st1 with error_constraints := r.1, error_variables := r.2 }
  let st3 :=
    if st2.best_sat_error > (st2.current_sat_error : WithTop Int) then
      { st2 with
          best_sat_error := (st2.current_sat_error : WithTop Int)
          final_solution := st2.vars }
    else st2
  let oc := st3.objective_cache.set v new_value
  { st3 with objective_cache := oc, current_opt_cost := (m.objective oc : WithTop Int) }

/-- One iteration of the while loop of `solve` of src/unnamed/part_000
(lines 499-702).  Note the control flow transcribed from the source: the
restart on the objective plateau coin (line 632), the restart on a worsened
objective (line 649) and the restart on the satisfaction plateau coin
(line 658) are not followed by `continue`, so execution falls through to the
apply block (line 664) on the freshly restarted state, with the deltas that
were memoized before the restart. -/
def step (m : Model) (st : State) (tp : Tape) : State × Tape :=
  let d0 := draw tp
  let variable_to_change := pick (compute_worst_variables m st) d0.1
  let domain_to_explore := m.domains.getD variable_to_change []
  let ds := delta_list m st.vars variable_to_change
  let sel := select_candidates domain_to_explore (fun x => (ds x).sum)
  let d1 := draw d0.2
  let new_value := pick sel.1 d1.1
  let min_conflict := sel.2.untop' 0
  if sel.2 ≤ (0 : WithTop Int) then
    if st.current_sat_error + min_conflict = 0 ∧ m.is_optimization = true then
      let oc := st.objective_cache.set variable_to_change new_value
      let candidate_opt_cost := m.objective oc
      if st.current_opt_cost > (candidate_opt_cost : WithTop Int) then
        let st1 := { st with
          objective_cache := oc
          current_opt_cost := (candidate_opt_cost : WithTop Int) }
        (if st1.best_opt_cost > st1.current_opt_cost then
          { st1 with best_opt_cost := st1.current_opt_cost, final_solution := st1.vars }
        else st1, d1.2)
      else if st.current_opt_cost = (candidate_opt_cost : WithTop Int) then
        let d2 := draw d1.2
        if coin d2.1 then
          let r := restart m { st with objective_cache := oc } d2.2
          (apply_local_changes m r.1 variable_to_change new_value min_conflict
            (ds new_value), r.2)
        else ({ st with objective_cache := oc }, d2.2)
      else
        let r := restart m { st with objective_cache := oc } d1.2
        (apply_local_changes m r.1 variable_to_change new_value min_conflict
          (ds new_value), r.2)
    else
      if sel.2 = (0 : WithTop Int) then
        let d2 := draw d1.2
        if coin d2.1 then
          let r := restart m st d2.2
          (apply_local_changes m r.1 variable_to_change new_value min_conflict
            (ds new_value), r.2)
        else
          (apply_local_changes m st variable_to_change new_value min_conflict
            (ds new_value), d2.2)
      else
        (apply_local_changes m st variable_to_change new_value min_conflict
          (ds new_value), d1.2)
  else
    restart m st d1.2

/-- The control-flow branch a `step` takes, for stating claims about the
branch structure. -/
inductive StepBranch where
  | improve_objective
  | walk_objective_plateau
  | restart_objective_plateau
  | restart_objective_worse
  | restart_plateau
  | walk_plateau
  | apply_move
  | restart_local_minimum
deriving DecidableEq

/-- The branch selector of `step`, mirroring its conditionals exactly. -/
def step_branch (m : Model) (st : State) (tp : Tape) : StepBranch :=
  let d0 := draw tp
  let variable_to_change := pick (compute_worst_variables m st) d0.1
  let domain_to_explore := m.domains.getD variable_to_change []
  let ds := delta_list m st.vars variable_to_change
  let sel := select_candidates domain_to_explore (fun x => (ds x).sum)
  let d1 := draw d0.2
  let min_conflict := sel.2.untop' 0
  if sel.2 ≤ (0 : WithTop Int) then
    if st.current_sat_error + min_conflict = 0 ∧ m.is_optimization = true then
      let oc := st.objective_cache.set variable_to_change (pick sel.1 d1.1)
      let candidate_opt_cost := m.objective oc
      if st.current_opt_cost > (candidate_opt_cost : WithTop Int) then
        .improve_objective
      else if st.current_opt_cost = (candidate_opt_cost : WithTop Int) then
        if coin (draw d1.2).1 then .restart_objective_plateau else .walk_objective_plateau
      else .restart_objective_worse
    else
      if sel.2 = (0 : WithTop Int) then
        if coin (draw d1.2).1 then .restart_plateau else .walk_plateau
      else .apply_move
  else .restart_local_minimum

/-- Embeds `tabu_time_local_min` as computed at the top of `solve`
(src/unnamed/part_000 line 472): `max(1, _number_variables / 2)`. -/
def tabu_time_local_min (n : Nat) : Int := max 1 ((n : Int) / 2)

/-- Embeds `tabu_time_selected` (line 473): `max(1, tabu_time_local_min / 2)`. -/
def tabu_time_selected (n : Nat) : Int := max 1 (tabu_time_local_min n / 2)

/-- The while loop of `solve`, with the wall clock replaced by an iteration
budget. -/
def solve_loop (m : Model) : Nat → State × Tape → State × Tape
  | 0, acc => acc
  | fuel + 1, acc =>
    if acc.1.best_sat_error > (0 : WithTop Int) ∨
        (acc.1.best_sat_error = (0 : WithTop Int) ∧ m.is_optimization = true) then
      solve_loop m fuel (step m acc.1 acc.2)
    else acc

/-- The values returned by `solve` through its out-parameters and return
value, plus the whole final engine state. -/
structure SolveResult where
  found : Bool
  final_cost : WithTop Int
  state : State
deriving DecidableEq

/-- Pointwise negation on `WithTop Int` (the sentinel is never negated: the
source only negates when `best_opt_cost < 0`, which is false at `DBL_MAX`). -/
def neg_top : WithTop Int → WithTop Int := Option.map Neg.neg

/-- Embeds `final_solution.resize(_number_variables)`. -/
def resize (l : List Int) (n : Nat) : List Int :=
  l.take n ++ List.replicate (n - l.length) 0

/-- Lines 705-758 of `solve`: the optional optimization post-process (the
default `Objective::expert_postprocess_optimization` of objective.cpp is a
no-op), the un-negation of a negated objective, the write of `final_cost`,
and the restore of the vars to `final_solution`. -/
def finalize (m : Model) (st : State) : SolveResult :=
  let best_opt :=
    if m.is_optimization = true ∧ st.best_opt_cost < (0 : WithTop Int) then
      neg_top st.best_opt_cost
    else st.best_opt_cost
  { found := decide (st.best_sat_error = (0 : WithTop Int))
    final_cost := if m.is_optimization = true then best_opt else st.best_sat_error
    state := { st with best_opt_cost := best_opt, vars := st.final_solution } }

/-- Embeds `solve( final_cost, final_solution, timeout, no_random_starting_point )`
of src/unnamed/part_000 (lines 456-759). -/
def solve (m : Model) (st : State) (fuel : Nat) (no_random_starting_point : Bool)
    (tp : Tape) : SolveResult :=
  let st0 := { st with
    no_random_starting_point := no_random_starting_point
    final_solution := resize st.final_solution m.nvar }
  finalize m (solve_loop m fuel (restart m st0 tp)).1

/-- The state a freshly constructed `Solver` starts from (constructor,
lines 338-395): the user's initial variable values and identity indexes,
zeroed error vectors and tabu list, the best/current costs at the `DBL_MAX`
sentinel.  The constructor also sets `_current_sat_error` to `DBL_MAX`; that
field is embedded as a plain integer and is initialized to `0` here, which
is sound because `solve` overwrites it in its initial `restart()` before any
read. -/
def initial_state (m : Model) (user_values : List Int) : State where
  vars := user_values
  indexes := List.range m.nvar
  error_constraints := List.replicate m.constraints.length 0
  error_variables := List.replicate m.nvar 0
  error_non_tabu_variables := List.replicate m.nvar 0
  weak_tabu_list := List.replicate m.nvar 0
  best_sat_error := ⊤
  best_opt_cost := ⊤
  best_sat_error_opt_loop := ⊤
  current_sat_error := 0
  current_opt_cost := ⊤
  objective_cache := user_values
  no_random_starting_point := false
  free_variables := true
  final_solution := []

/-- Well-formedness of a constructed problem instance: at least one variable
(the constructor itself dereferences `_variables[0]`), every constraint scope
a duplicate-free list of valid variable ids (solver-internal ids are vector
indexes), and no empty domain (error taxonomy item 2 of the specification:
fatal at construction). -/
abbrev WfModel (m : Model) : Prop :=
  0 < m.nvar ∧
  (∀ c ∈ m.constraints, c.scope.Nodup ∧ ∀ u ∈ c.scope, u < m.nvar) ∧
  (∀ d ∈ m.domains, d ≠ [])

/-- The vectors of the engine state have their constructed sizes. -/
abbrev WfState (m : Model) (st : State) : Prop :=
  st.vars.length = m.nvar ∧
  st.error_constraints.length = m.constraints.length ∧
  st.error_variables.length = m.nvar

/-- P1 and P2 of the specification: `_current_sat_error` is the sum of
`_error_constraints`, and each `_error_variables[v]` is the sum of
`_error_constraints[i]` over the constraints `i` of `_matrix_var_ctr[v]`. -/
abbrev Inv (m : Model) (st : State) : Prop :=
  st.current_sat_error = st.error_constraints.sum ∧
  ∀ v < m.nvar,
    st.error_variables.getD v 0 = sumIdx st.error_constraints (matrix_var_ctr m v)

/-! ### Concrete instances used to evaluate the engine on explicit inputs -/

/-- One variable with domain `{0, 1}`, error `|x| + 1` (never satisfiable),
and a user `simulate_delta` that is exact at the assignment `[1]` and
reports a uniform worsening of `1` elsewhere. -/
def cex_constraint : Constraint where
  scope := [0]
  error := fun a => (a.getD 0 0).natAbs + 1
  simulate_delta := fun a _ x => if a.getD 0 0 = 1 then (x.natAbs : Int) - 1 else 1

/-- Satisfaction model over `cex_constraint`. -/
def cex_model : Model where
  domains := [[0, 1]]
  constraints := [cex_constraint]
  is_optimization := false
  objective := fun _ => 0
  permutation_problem := false

/-- A tape driving `cex_model`: ten draws sampling value `1` in the initial
restart, the two picks of iteration 1, the two picks of iteration 2, and ten
draws for the sampling of the restart that iteration 2 triggers. -/
def cex_run_tape : Tape :=
  List.replicate 10 1 ++ [0, 0, 0, 0] ++ List.replicate 10 1

/-- The state and remaining tape right after the initial `restart()` of a
`solve` run of `cex_model` on `cex_run_tape`. -/
def cex_start : State × Tape :=
  restart cex_model (initial_state cex_model [0]) cex_run_tape

/-- Constraint with constant error 1 whose `simulate_delta` reports `+1` for
candidate value 1. -/
def plateau_constraint_up : Constraint where
  scope := [0]
  error := fun _ => 1
  simulate_delta := fun _ _ x => if x = 1 then 1 else 0

/-- Constraint with constant error 1 whose `simulate_delta` reports `-1` for
candidate value 1. -/
def plateau_constraint_down : Constraint where
  scope := [0]
  error := fun _ => 1
  simulate_delta := fun _ _ x => if x = 1 then -1 else 0

/-- One variable, two constraints whose deltas cancel: every candidate value
is a plateau (`min_conflict = 0`) while the per-constraint deltas of value 1
are `+1` and `-1`. -/
def plateau_model : Model where
  domains := [[0, 1]]
  constraints := [plateau_constraint_up, plateau_constraint_down]
  is_optimization := false
  objective := fun _ => 0
  permutation_problem := false

/-- A stable state of `plateau_model`: the result of `restart()` on an
all-zero tape (so the sampled configuration is `[0]`). -/
def plateau_state : State :=
  (restart plateau_model (initial_state plateau_model [0]) (List.replicate 10 0)).1

/-- A tape whose three leading draws pick the worst variable `0`, the
candidate value `1`, and a plateau coin toss below 0.1 (so the restart branch
is taken); the trailing zeros drive the sampling of that restart to the
configuration `[0]`. -/
def plateau_tape : Tape := [0, 1, 0] ++ List.replicate 10 0

/-- One variable with domain `{1, 5}` and error `|x|`; deltas are irrelevant
to `set_initial_configuration`. -/
def typo_model : Model where
  domains := [[1, 5]]
  constraints := [{ scope := [0], error := fun a => (a.getD 0 0).natAbs,
                    simulate_delta := fun _ _ _ => 0 }]
  is_optimization := false
  objective := fun _ => 0
  permutation_problem := false

end Ghost

namespace GhostV2

/-- Modelled from the spec: `variable.hpp` is not under src/.  A variable
holds a current integer value (read by `get_value`, written by `set_value`,
read by constraints when they evaluate their cost) and, for permutation
problems, an index into the shared value pool; the engine swaps the
`(index, value)` pair of two variables directly (`std::swap` on the two
fields in `Solver::random_permutations`, `Solver::simulate_permutation_cost`
and `Solver::permutation_move` of src/unnamed/part_002). -/
structure Variable where
  value : Int
  index : Nat
deriving DecidableEq

instance : Inhabited Variable := ⟨⟨0, 0⟩⟩

/-- A constraint of the older engine (src/unnamed/part_002): a scope
(`has_variable`) and a `cost` read off the live variables. -/
structure Constraint where
  scope : List Nat
  cost : (Nat → Variable) → Int

instance : Inhabited Constraint := ⟨⟨[], fun _ => 0⟩⟩

/-- A problem instance of the older engine.  Variables are keyed by their
solver id (`_id - _varOffset`), constraints by `get_id() - _ctrOffset`. -/
structure Model where
  nvar : Nat
  constraints : List Constraint

/-- Embeds `_mapVarCtr[v]`. -/
def mapVarCtr (m : Model) (v : Nat) : List Nat :=
  (List.range m.constraints.length).filter
    (fun i => decide (v ∈ (m.constraints.getD i default).scope))

/-- Embeds `c->cost()`. -/
def call_cost (m : Model) (i : Nat) (vars : Nat → Variable) : Int :=
  (m.constraints.getD i default).cost vars

/-- Embeds `variable->set_value( value )`. -/
def set_value (vars : Nat → Variable) (v : Nat) (x : Int) : Nat → Variable :=
  fun k => if k = v then { vars k with value := x } else vars k

/-- Embeds `std::swap(a._index, b._index); std::swap(a._cache_value, b._cache_value)`:
the engine exchanges the whole `(index, value)` pair of the two variables. -/
def swap_variables (vars : Nat → Variable) (i j : Nat) : Nat → Variable :=
  fun k => if k = i then vars j else if k = j then vars i else vars k

/-- Embeds `Solver::simulate_local_move_cost` (src/unnamed/part_002, lines 515-528).
The source comment reads `NO VALUE BACKED-UP!`: the variable is set to the
simulated value and never restored; the mutated state is returned alongside
the new satisfaction cost. -/
def simulate_local_move_cost (m : Model) (vars : Nat → Variable) (v : Nat)
    (value : Int) (costConstraints : List Int) (currentSatCost : Int) :
    Int × (Nat → Variable) :=
  let vars' := set_value vars v value
  (currentSatCost +
    ((mapVarCtr m v).map
      (fun c => call_cost m c vars' - costConstraints.getD c 0)).sum,
   vars')

/-- Embeds `Solver::simulate_permutation_cost` (src/unnamed/part_002, lines
530-566): swap, evaluate the constraints of both variables (each counted
once, via the `done` array), swap back before returning. -/
def simulate_permutation_cost (m : Model) (vars : Nat → Variable) (w o : Nat)
    (costConstraints : List Int) (currentSatCost : Int) :
    Int × (Nat → Variable) :=
  let vs := swap_variables vars w o
  let s1 := ((mapVarCtr m w).map
    (fun c => call_cost m c vs - costConstraints.getD c 0)).sum
  let s2 := (((mapVarCtr m o).filter (fun c => decide (c ∉ mapVarCtr m w))).map
    (fun c => call_cost m c vs - costConstraints.getD c 0)).sum
  (currentSatCost + s1 + s2, swap_variables vs w o)

/-- Embeds `Solver::permutation_move` (src/unnamed/part_002, lines 614-711): scan
every other variable through `simulate_permutation_cost` (threading the
engine state through each simulation), tie-break with the objective's
default `heuristic_value` (a uniform pick, objective.cpp line 70-73) when
several partners achieve the best cost, and swap the chosen partner with the
picked variable.  Returns the new state, the new `currentSatCost`, and the
remaining tape. -/
def permutation_move (m : Model) (vars0 : Nat → Variable) (v : Nat)
    (costConstraints : List Int) (currentSatCost : Int) (tp : Tape) :
    (Nat → Variable) × Int × Tape :=
  let scan := ((List.range m.nvar).filter (fun o => decide (o ≠ v))).foldl
    (fun (acc : (Nat → Variable) × (List Nat × WithTop Int)) o =>
      let r := simulate_permutation_cost m acc.1 v o costConstraints currentSatCost
      (r.2,
       if acc.2.2 > (r.1 : WithTop Int) then ([o], (r.1 : WithTop Int))
       else if acc.2.2 = (r.1 : WithTop Int) then (acc.2.1 ++ [o], acc.2.2)
       else acc.2))
    (vars0, ([], ⊤))
  let candidates := scan.2.1
  let d := draw tp
  let u := if candidates.length > 1 then pick candidates d.1 else candidates.getD 0 0
  (swap_variables scan.1 v u, (scan.2.2).untop' 0,
   if candidates.length > 1 then d.2 else tp)

/-- Embeds `Solver::random_permutations` (src/unnamed/part_002, lines 446-458). -/
def random_permutations_v2 (m : Model) (vars : Nat → Variable) (tp : Tape) :
    (Nat → Variable) × Tape :=
  (pairList m.nvar).foldl
    (fun acc ij =>
      let d := draw acc.2
      if d.1 % 2 == 0 then (swap_variables acc.1 ij.1 ij.2, d.2) else (acc.1, d.2))
    (vars, tp)

/-- Embeds `Solver::update_better_configuration` (lines 473-483): snapshot
`get_value()` of every variable. -/
def update_better_configuration (n : Nat) (vars : Nat → Variable) : List Int :=
  (List.range n).map (fun i => (vars i).value)

/-- Embeds `_vecVariables[i].set_value( bestValues[i] )` for every `i < n`. -/
def set_values (n : Nat) (vars : Nat → Variable) (vals : List Int) :
    Nat → Variable :=
  fun k => if k < n then { vars k with value := vals.getD k 0 } else vars k

/-- The permutation branch of `Solver::set_initial_configuration`
(src/unnamed/part_002, lines 411-437): sample by `random_permutations`,
keep the best-cost snapshot (no typo in this version), short-circuit on a
zero-cost sample, finally restore the snapshot into the variables. -/
def sampling_loop_v2 (m : Model) :
    Nat → (Nat → Variable) → Tape → WithTop Int → List Int →
      (Nat → Variable) × Tape × List Int
  | 0, vars, tp, _, bestValues => (vars, tp, bestValues)
  | k + 1, vars, tp, bestSatCost, bestValues =>
    let s := random_permutations_v2 m vars tp
    let cur : Int :=
      ((List.range m.constraints.length).map (fun i => call_cost m i s.1)).sum
    let upd := bestSatCost > (cur : WithTop Int)
    let bestValues' := if upd then update_better_configuration m.nvar s.1 else bestValues
    if cur = 0 then (s.1, s.2, bestValues')
    else sampling_loop_v2 m k s.1 s.2
      (if upd then (cur : WithTop Int) else bestSatCost) bestValues'

/-- Embeds `set_initial_configuration( samplings )`, permutation branch. -/
def set_initial_configuration_perm (m : Model) (vars : Nat → Variable)
    (samplings : Int) (tp : Tape) : (Nat → Variable) × Tape :=
  let r := sampling_loop_v2 m (max 1 samplings).toNat vars tp ⊤
    (List.replicate m.nvar 0)
  (set_values m.nvar r.1 r.2.2, r.2.1)

/-- Embeds `decay_weak_tabu_list` (src/unnamed/part_002, lines 460-471): decrement
every nonzero counter (the zero ones also set the `freeVariables` flag, not
modelled here). -/
def decay_weak_tabu_list (l : List Int) : List Int :=
  l.map (fun t => if t = 0 then t else t - 1)

/-- The tabu write of the satisfaction loop (src/unnamed/part_002, lines
226-247): the selected variable's counter receives `tabuTimeSelected` after a
move improving the per-loop best and `tabuTimeLocalMin` on local minima. -/
def weak_tabu_write (tabu : List Int) (v n : Nat) (improving : Bool) : List Int :=
  tabu.set v (if improving then Ghost.tabu_time_selected n else Ghost.tabu_time_local_min n)

/-- The satisfaction-loop iterations of the permutation engine, driving the
source operations: each iteration recomputes the constraint costs from
scratch (lines 156-159), moves one variable `v` (an arbitrary tape-chosen
id, subsuming the worst-variable pick) through `permutation_move`.  Only the
variable state matters for the value-multiset claim. -/
def permutation_run (m : Model) : Nat → (Nat → Variable) → Tape → Nat → Variable
  | 0, vars, _ => vars
  | k + 1, vars, tp =>
    let d0 := draw tp
    let v := d0.1 % m.nvar
    let costC := (List.range m.constraints.length).map (fun i => call_cost m i vars)
    let r := permutation_move m vars v costC costC.sum d0.2
    permutation_run m k r.1 r.2.2

/-- A whole permutation-mode epoch: initial sampling (ten samplings, as the
optimization loop requests) followed by `k` applied permutation moves. -/
def permutation_epoch (m : Model) (vars : Nat → Variable) (k : Nat) (tp : Tape) :
    Nat → Variable :=
  let s := set_initial_configuration_perm m vars 10 tp
  permutation_run m k s.1 s.2

/-- The list of values currently held by the variables. -/
def values_of (n : Nat) (vars : Nat → Variable) : List Int :=
  (List.range n).map (fun k => (vars k).value)

/-- A one-variable instance whose single constraint reads the variable's
value, for evaluating the simulation functions on explicit inputs. -/
def frame_model : Model where
  nvar := 1
  constraints := [{ scope := [0], cost := fun vars => (vars 0).value }]

/-- The state holding value 3 everywhere. -/
def frame_vars : Nat → Variable := fun _ => ⟨3, 0⟩

/-- A two-variable permutation instance with values `[7, 8]` (cost: value of
variable 0), for the C9 witness. -/
def perm_model : Model where
  nvar := 2
  constraints := [{ scope := [0, 1], cost := fun vars => (vars 0).value }]

/-- Initial permutation-mode state with values 7 and 8. -/
def perm_vars : Nat → Variable := fun k => if k = 0 then ⟨7, 0⟩ else ⟨8, 1⟩

end GhostV2

namespace GhostObj

/-- Embeds `Objective::expert_heuristic_value( variables, var, possible_values )` of
objective.cpp (src/unnamed/part_004, lines 39-68): back up the variable's
value, set it to each candidate in turn (`var` aliases `variables[v]`, so
`cost( variables )` scores the candidate), keep the candidates minimizing the
cost, restore the backup, and return a uniform pick among the minimizers.
Modelled from the spec: `Variable::get_value`/`set_value` read and write the
current value (`variable.hpp` is not under src/). -/
def expert_heuristic_value (cost : List Int → Int) (vars : List Int) (v : Nat)
    (possible_values : List Int) (t : Nat) : Int × List Int :=
  let backup := vars.getD v 0
  let scan := possible_values.foldl
    (fun (acc : List Int × (List Int × WithTop Int)) x =>
      let vs := acc.1.set v x
      let simulatedCost := cost vs
      (vs,
       if acc.2.2 > (simulatedCost : WithTop Int) then ([x], (simulatedCost : WithTop Int))
       else if acc.2.2 = (simulatedCost : WithTop Int) then (acc.2.1 ++ [x], acc.2.2)
       else acc.2))
    (vars, ([], ⊤))
  (pick scan.2.1 t, scan.1.set v backup)

end GhostObj

namespace Ghost

/-- C1.  For every run of `solve`, the returned boolean is true iff
`best_sat_error` equals 0 at the end of the run; every run — found or not
(e.g. timeout) — writes the best-found cost into `final_cost`
(`best_opt_cost`, un-negated, for optimization problems, `best_sat_error`
otherwise) and the best-found assignment snapshot into `final_solution`,
to which the vars are restored. -/
theorem solve_found_iff_best_sat_error_zero (m : Model) (st : State) (fuel : Nat)
    (nr : Bool) (tp : Tape) :
    ((solve m st fuel nr tp).found = true ↔
      (solve m st fuel nr tp).state.best_sat_error = 0) ∧
    (solve m st fuel nr tp).state.vars = (solve m st fuel nr tp).state.final_solution ∧
    (m.is_optimization = false →
      (solve m st fuel nr tp).final_cost = (solve m st fuel nr tp).state.best_sat_error) ∧
    (m.is_optimization = true →
      (solve m st fuel nr tp).final_cost = (solve m st fuel nr tp).state.best_opt_cost) := by
  unfold solve finalize
  refine ⟨by simp, by simp, ?_, ?_⟩ <;> intro h <;> simp [h]

end Ghost

/-! ### Generic helper lemmas -/

theorem foldl_preserve {α β : Type _} {P : α → Prop} {f : α → β → α} {l : List β}
    {a : α} (h : ∀ x b, P x → P (f x b)) (ha : P a) : P (l.foldl f a) := by
  induction l generalizing a with
  | nil => exact ha
  | cons b t ih => exact ih (h a b ha)

theorem getD_set_eq {α : Type _} {l : List α} {i : Nat} {d : α} (a : α)
    (h : i < l.length) : (l.set i a).getD i d = a := by
  simp [List.getD_eq_getElem?_getD, List.getElem?_set_self', h]

theorem getD_set_neq {α : Type _} {l : List α} {i j : Nat} {d : α} (a : α)
    (h : i ≠ j) : (l.set i a).getD j d = l.getD j d := by
  simp [List.getD_eq_getElem?_getD, List.getElem?_set_ne h]

theorem getD_mem {α : Type _} {l : List α} {i : Nat} (d : α) (h : i < l.length) :
    l.getD i d ∈ l := by
  rw [List.getD_eq_getElem?_getD, List.getElem?_eq_getElem h]
  exact List.getElem_mem _

theorem pick_mem {α : Type _} [Inhabited α] {l : List α} (t : Nat) (h : l ≠ []) :
    pick l t ∈ l :=
  getD_mem _ (Nat.mod_lt _ (List.length_pos.mpr h))

theorem sum_set_add {l : List Int} {i : Nat} (d : Int) (h : i < l.length) :
    (l.set i (l.getD i 0 + d)).sum = l.sum + d := by
  induction l generalizing i with
  | nil => simp at h
  | cons x t ih =>
    cases i with
    | zero => simp; ring
    | succ n =>
      simp only [List.set, List.getD_cons_succ, List.sum_cons]
      rw [ih (by simpa using h)]
      ring

theorem sumIdx_nil (l : List Int) : sumIdx l [] = 0 := rfl

theorem sumIdx_cons (l : List Int) (i : Nat) (t : List Nat) :
    sumIdx l (i :: t) = l.getD i 0 + sumIdx l t := by
  simp [sumIdx]

theorem sumIdx_set_not_mem {l : List Int} {idxs : List Nat} {i : Nat} (a : Int)
    (h : i ∉ idxs) : sumIdx (l.set i a) idxs = sumIdx l idxs := by
  induction idxs with
  | nil => rfl
  | cons j t ih =>
    have hj : i ≠ j := fun hij => h (hij ▸ List.mem_cons_self _ _)
    have ht : i ∉ t := fun hit => h (List.mem_cons_of_mem _ hit)
    rw [sumIdx_cons, sumIdx_cons, getD_set_neq a hj, ih ht]

theorem sumIdx_set {l : List Int} {idxs : List Nat} {i : Nat} (d : Int)
    (hi : i < l.length) (hnd : idxs.Nodup) :
    sumIdx (l.set i (l.getD i 0 + d)) idxs =
      sumIdx l idxs + (if i ∈ idxs then d else 0) := by
  induction idxs with
  | nil => simp [sumIdx_nil]
  | cons j t ih =>
    rcases List.nodup_cons.mp hnd with ⟨hj, ht⟩
    rw [sumIdx_cons, sumIdx_cons]
    by_cases hij : i = j
    · subst hij
      have hit : i ∉ t := hj
      rw [getD_set_eq _ hi, sumIdx_set_not_mem _ hit]
      simp [List.mem_cons]
      ring
    · rw [getD_set_neq _ hij, ih ht]
      by_cases hit : i ∈ t
      · simp [hit, List.mem_cons, hij]
        ring
      · simp [hit, List.mem_cons, hij]

theorem getD_map_range {α : Type _} (f : Nat → α) {n v : Nat} (d : α) (h : v < n) :
    ((List.range n).map f).getD v d = f v := by
  rw [List.getD_eq_getElem?_getD, List.getElem?_map, List.getElem?_range h]
  rfl

theorem foldl_add_at_length {s : List Nat} {d : Int} {l : List Int} :
    (s.foldl (fun ev x => ev.set x (ev.getD x 0 + d)) l).length = l.length := by
  induction s generalizing l with
  | nil => rfl
  | cons a t ih => rw [List.foldl_cons, ih, List.length_set]

theorem foldl_add_at_getD {s : List Nat} {d : Int} {l : List Int}
    (hnd : s.Nodup) (hlt : ∀ u ∈ s, u < l.length) (u : Nat) :
    (s.foldl (fun ev x => ev.set x (ev.getD x 0 + d)) l).getD u 0 =
      l.getD u 0 + (if u ∈ s then d else 0) := by
  induction s generalizing l with
  | nil => simp
  | cons a t ih =>
    rcases List.nodup_cons.mp hnd with ⟨ha, ht⟩
    have hlen : ∀ x ∈ t, x < (l.set a (l.getD a 0 + d)).length := by
      intro x hx
      rw [List.length_set]
      exact hlt x (List.mem_cons_of_mem _ hx)
    rw [List.foldl_cons, ih ht hlen]
    by_cases hua : u = a
    · subst hua
      have hut : u ∉ t := ha
      rw [getD_set_eq _ (hlt u (List.mem_cons_self _ _))]
      simp [hut, List.mem_cons]
    · rw [getD_set_neq _ (fun h => hua h.symm)]
      simp [List.mem_cons, hua]

theorem foldl_max_mem (x : Int) (t : List Int) : t.foldl max x ∈ x :: t := by
  induction t generalizing x with
  | nil => simp
  | cons y s ih =>
    have h := ih (max x y)
    rw [List.foldl_cons]
    rcases List.mem_cons.mp h with h1 | h1
    · rcases max_choice x y with h2 | h2 <;> rw [h1, h2] <;> simp
    · exact List.mem_cons_of_mem _ (List.mem_cons_of_mem _ h1)

theorem le_foldl_max (x : Int) (t : List Int) : ∀ y ∈ x :: t, y ≤ t.foldl max x := by
  induction t generalizing x with
  | nil =>
    intro y hy
    simp at hy
    simp [hy]
  | cons z s ih =>
    intro y hy
    rw [List.foldl_cons]
    rcases List.mem_cons.mp hy with h | h
    · subst h
      exact le_trans (le_max_left y z) (ih (max y z) _ (List.mem_cons_self _ _))
    · rcases List.mem_cons.mp h with h1 | h1
      · subst h1
        exact le_trans (le_max_right x y) (ih (max x y) _ (List.mem_cons_self _ _))
      · exact ih (max x z) y (List.mem_cons_of_mem _ h1)

theorem min_scan_go {α : Type _} (f : α → Int) (l : List α) :
    ∀ (acc : List α × WithTop Int) (S : List α),
      (∃ q : Int, acc.2 = (q : WithTop Int) ∧ acc.1 ≠ [] ∧
        (∀ x ∈ acc.1, x ∈ S ∧ f x = q) ∧ (∀ y ∈ S, q ≤ f y)) →
      ∃ q' : Int,
        (l.foldl (fun acc x =>
            if acc.2 > (f x : WithTop Int) then ([x], (f x : WithTop Int))
            else if acc.2 = (f x : WithTop Int) then (acc.1 ++ [x], acc.2)
            else acc) acc).2 = (q' : WithTop Int) ∧
        (l.foldl (fun acc x =>
            if acc.2 > (f x : WithTop Int) then ([x], (f x : WithTop Int))
            else if acc.2 = (f x : WithTop Int) then (acc.1 ++ [x], acc.2)
            else acc) acc).1 ≠ [] ∧
        (∀ x ∈ (l.foldl (fun acc x =>
            if acc.2 > (f x : WithTop Int) then ([x], (f x : WithTop Int))
            else if acc.2 = (f x : WithTop Int) then (acc.1 ++ [x], acc.2)
            else acc) acc).1, x ∈ S ++ l ∧ f x = q') ∧
        (∀ y ∈ S ++ l, q' ≤ f y) := by
  induction l with
  | nil =>
    intro acc S hacc
    obtain ⟨q, hq, hne, hmem, hmin⟩ := hacc
    exact ⟨q, by simpa using hq, by simpa using hne, by simpa using hmem,
      by simpa using hmin⟩
  | cons x t ih =>
    intro acc S hacc
    obtain ⟨q, hq, hne, hmem, hmin⟩ := hacc
    rw [List.foldl_cons]
    have hassoc : S ++ x :: t = (S ++ [x]) ++ t := by simp
    by_cases h1 : acc.2 > ((f x : Int) : WithTop Int)
    · have hlt : f x < q := by
        rw [hq] at h1
        exact_mod_cast h1
      have step : (if acc.2 > ((f x : Int) : WithTop Int) then
            ([x], ((f x : Int) : WithTop Int))
          else if acc.2 = ((f x : Int) : WithTop Int) then (acc.1 ++ [x], acc.2)
          else acc) = ([x], ((f x : Int) : WithTop Int)) := if_pos h1
      rw [step]
      obtain ⟨q', h2, h3, h4, h5⟩ := ih ([x], ((f x : Int) : WithTop Int)) (S ++ [x])
        ⟨f x, rfl, by simp, by simp, by
          intro y hy
          rcases List.mem_append.mp hy with h | h
          · exact le_trans (le_of_lt hlt) (hmin y h)
          · simp at h
            simp [h]⟩
      exact ⟨q', h2, h3, by rw [hassoc]; exact h4, by rw [hassoc]; exact h5⟩
    · by_cases h2 : acc.2 = ((f x : Int) : WithTop Int)
      · have hfx : f x = q := by
          rw [hq] at h2
          exact_mod_cast h2.symm
        have step : (if acc.2 > ((f x : Int) : WithTop Int) then
              ([x], ((f x : Int) : WithTop Int))
            else if acc.2 = ((f x : Int) : WithTop Int) then (acc.1 ++ [x], acc.2)
            else acc) = (acc.1 ++ [x], acc.2) := by rw [if_neg h1, if_pos h2]
        rw [step]
        obtain ⟨q', h3, h4, h5, h6⟩ := ih (acc.1 ++ [x], acc.2) (S ++ [x])
          ⟨q, hq, by simp [hne], by
            intro y hy
            rcases List.mem_append.mp hy with h | h
            · exact ⟨List.mem_append.mpr (Or.inl (hmem y h).1), (hmem y h).2⟩
            · simp at h
              subst h
              simp [hfx], by
            intro y hy
            rcases List.mem_append.mp hy with h | h
            · exact hmin y h
            · simp at h
              simp [h, hfx]⟩
        exact ⟨q', h3, h4, by rw [hassoc]; exact h5, by rw [hassoc]; exact h6⟩
      · have hgt : q < f x := by
          rw [hq] at h1 h2
          rcases lt_trichotomy q (f x) with h | h | h
          · exact h
          · exact absurd (by exact_mod_cast h) h2
          · exact absurd (by exact_mod_cast h) h1
        have step : (if acc.2 > ((f x : Int) : WithTop Int) then
              ([x], ((f x : Int) : WithTop Int))
            else if acc.2 = ((f x : Int) : WithTop Int) then (acc.1 ++ [x], acc.2)
            else acc) = acc := by rw [if_neg h1, if_neg h2]
        rw [step]
        obtain ⟨q', h3, h4, h5, h6⟩ := ih acc (S ++ [x])
          ⟨q, hq, hne, by
            intro y hy
            exact ⟨List.mem_append.mpr (Or.inl (hmem y hy).1), (hmem y hy).2⟩, by
            intro y hy
            rcases List.mem_append.mp hy with h | h
            · exact hmin y h
            · simp at h
              simp [h, le_of_lt hgt]⟩
        exact ⟨q', h3, h4, by rw [hassoc]; exact h5, by rw [hassoc]; exact h6⟩

theorem min_scan_spec {α : Type _} (f : α → Int) {l : List α} (h : l ≠ []) :
    ∃ q : Int, (min_scan f l).2 = (q : WithTop Int) ∧ (min_scan f l).1 ≠ [] ∧
      (∀ x ∈ (min_scan f l).1, x ∈ l ∧ f x = q) ∧ ∀ y ∈ l, q ≤ f y := by
  obtain ⟨x, t, rfl⟩ := List.exists_cons_of_ne_nil h
  have h0 : (([] : List α), (⊤ : WithTop Int)).2 >
      ((f x : Int) : WithTop Int) := WithTop.coe_lt_top _
  unfold min_scan
  rw [List.foldl_cons, if_pos h0]
  simpa using min_scan_go f t ([x], ((f x : Int) : WithTop Int)) [x]
    ⟨f x, rfl, by simp, by simp, by simp⟩

namespace Ghost

theorem max_element_mem {l : List Int} (h : l ≠ []) : max_element l ∈ l := by
  obtain ⟨x, t, rfl⟩ := List.exists_cons_of_ne_nil h
  exact foldl_max_mem x t

theorem le_max_element {l : List Int} : ∀ y ∈ l, y ≤ max_element l := by
  cases l with
  | nil => simp
  | cons x t => exact le_foldl_max x t

theorem compute_worst_variables_mem (m : Model) (st : State) (v : Nat) :
    v ∈ compute_worst_variables m st ↔
      v < m.nvar ∧ st.error_variables.getD v 0 = max_element st.error_variables := by
  simp [compute_worst_variables, List.mem_filter, List.mem_range]

theorem compute_worst_variables_ne_nil (m : Model) (st : State)
    (h : st.error_variables.length = m.nvar) (hn : 0 < m.nvar) :
    compute_worst_variables m st ≠ [] := by
  have hne : st.error_variables ≠ [] := by
    intro hnil
    rw [hnil] at h
    simp at h
    omega
  obtain ⟨i, hi, hgi⟩ := List.getElem_of_mem (max_element_mem hne)
  have hmem : i ∈ compute_worst_variables m st := by
    rw [compute_worst_variables_mem]
    refine ⟨by omega, ?_⟩
    rw [List.getD_eq_getElem?_getD, List.getElem?_eq_getElem hi, hgi]
    rfl
  intro hnil
  rw [hnil] at hmem
  simp at hmem

theorem matrix_var_ctr_nodup (m : Model) (v : Nat) : (matrix_var_ctr m v).Nodup :=
  (List.nodup_range _).filter _

theorem matrix_var_ctr_mem (m : Model) (v i : Nat) :
    i ∈ matrix_var_ctr m v ↔
      i < m.constraints.length ∧ v ∈ (m.constraints.getD i default).scope := by
  simp [matrix_var_ctr, List.mem_filter, List.mem_range]

theorem monte_carlo_fields (m : Model) (st : State) (tp : Tape) :
    (monte_carlo_sampling m st tp).1.vars.length = st.vars.length ∧
    (monte_carlo_sampling m st tp).1.weak_tabu_list = st.weak_tabu_list := by
  unfold monte_carlo_sampling
  refine foldl_preserve
    (P := fun acc : State × Tape =>
      acc.1.vars.length = st.vars.length ∧ acc.1.weak_tabu_list = st.weak_tabu_list)
    ?_ ⟨rfl, rfl⟩
  intro x b hx
  exact ⟨by simpa using hx.1, hx.2⟩

theorem random_permutations_fields (m : Model) (st : State) (tp : Tape) :
    (random_permutations m st tp).1.vars.length = st.vars.length ∧
    (random_permutations m st tp).1.weak_tabu_list = st.weak_tabu_list := by
  unfold random_permutations
  refine foldl_preserve
    (P := fun acc : State × Tape =>
      acc.1.vars.length = st.vars.length ∧ acc.1.weak_tabu_list = st.weak_tabu_list)
    ?_ ⟨rfl, rfl⟩
  intro x b hx
  dsimp only
  split
  · exact ⟨by simp [swapAt2, hx.1], hx.2⟩
  · exact hx

theorem sample_once_fields (m : Model) (st : State) (tp : Tape) :
    (sample_once m st tp).1.vars.length = st.vars.length ∧
    (sample_once m st tp).1.weak_tabu_list = st.weak_tabu_list := by
  unfold sample_once
  split
  · exact random_permutations_fields m st tp
  · exact monte_carlo_fields m st tp

theorem sampling_loop_fields (m : Model) : ∀ (k : Nat) (st : State) (tp : Tape)
    (b : WithTop Int) (bv : List Int),
    (sampling_loop m k st tp b bv).1.vars.length = st.vars.length ∧
    (sampling_loop m k st tp b bv).1.weak_tabu_list = st.weak_tabu_list ∧
    ((sampling_loop m k st tp b bv).2.2.length = st.vars.length ∨
      (sampling_loop m k st tp b bv).2.2 = bv) := by
  intro k
  induction k with
  | zero => exact fun st tp b bv => ⟨rfl, rfl, Or.inr rfl⟩
  | succ n ih =>
    intro st tp b bv
    rw [sampling_loop]
    obtain ⟨h1, h2⟩ := sample_once_fields m st tp
    split
    · refine ⟨h1, h2, ?_⟩
      split
      · exact Or.inl h1
      · exact Or.inr rfl
    · obtain ⟨g1, g2, g3⟩ := ih (sample_once m st tp).1 (sample_once m st tp).2 b
        (if b > (((List.range m.constraints.length).map
            (fun i => call_error m (sample_once m st tp).1.vars i)).sum : WithTop Int)
          then (sample_once m st tp).1.vars else bv)
      refine ⟨h1 ▸ g1, h2 ▸ g2, ?_⟩
      rcases g3 with g3 | g3
      · exact Or.inl (h1 ▸ g3)
      · rw [g3]
        split
        · exact Or.inl h1
        · exact Or.inr rfl

theorem set_initial_configuration_fields (m : Model) (st : State) (s : Int) (tp : Tape)
    (h : st.vars.length = m.nvar) :
    (set_initial_configuration m st s tp).1.vars.length = m.nvar ∧
    (set_initial_configuration m st s tp).1.weak_tabu_list = st.weak_tabu_list := by
  unfold set_initial_configuration
  split
  · obtain ⟨h1, h2⟩ := monte_carlo_fields m st tp
    exact ⟨h ▸ h1, h2⟩
  · obtain ⟨g1, g2, g3⟩ := sampling_loop_fields m (max 1 s).toNat st tp ⊤
      (List.replicate m.nvar 0)
    refine ⟨?_, g2⟩
    dsimp only
    rcases g3 with g3 | g3
    · rw [g3, h]
    · rw [g3]
      simp

theorem restart_fields (m : Model) (st : State) (tp : Tape)
    (h : st.vars.length = m.nvar) :
    (restart m st tp).1.vars.length = m.nvar ∧
    (restart m st tp).1.weak_tabu_list = List.replicate m.nvar 0 := by
  unfold restart
  dsimp only
  split
  · exact set_initial_configuration_fields m _ 10 tp h
  · exact ⟨h, rfl⟩

theorem restart_wf_inv (m : Model) (st : State) (tp : Tape)
    (h : st.vars.length = m.nvar) :
    WfState m (restart m st tp).1 ∧ Inv m (restart m st tp).1 := by
  have hv := (restart_fields m st tp h).1
  constructor
  · refine ⟨hv, ?_, ?_⟩ <;>
      simp [restart, compute_constraints_errors, compute_variables_errors, Model.nvar]
  · constructor
    · simp [restart]
    · intro v hvn
      show (compute_variables_errors m _).getD v 0 = _
      rw [compute_variables_errors, getD_map_range _ _ hvn]
      rfl

theorem apply_deltas_spec (m : Model)
    (h : ∀ c ∈ m.constraints, c.scope.Nodup ∧ ∀ u ∈ c.scope, u < m.nvar) :
    ∀ (ds : List (Nat × Int)) (errc errv : List Int),
      (∀ p ∈ ds, p.1 < m.constraints.length) →
      errc.length = m.constraints.length → errv.length = m.nvar →
      (∀ u < m.nvar, errv.getD u 0 = sumIdx errc (matrix_var_ctr m u)) →
      (apply_deltas m ds errc errv).1.length = m.constraints.length ∧
      (apply_deltas m ds errc errv).2.length = m.nvar ∧
      (apply_deltas m ds errc errv).1.sum = errc.sum + (ds.map Prod.snd).sum ∧
      (∀ u < m.nvar, (apply_deltas m ds errc errv).2.getD u 0 =
        sumIdx (apply_deltas m ds errc errv).1 (matrix_var_ctr m u)) := by
  intro ds
  induction ds with
  | nil =>
    intro errc errv _ hc hv hinv
    exact ⟨hc, hv, by simp [apply_deltas], fun u hu => hinv u hu⟩
  | cons p t ih =>
    intro errc errv hmem hc hv hinv
    have hp : p.1 < m.constraints.length := hmem p (List.mem_cons_self _ _)
    have hp' : p.1 < errc.length := hc ▸ hp
    have hscope := h (m.constraints.getD p.1 default) (getD_mem _ hp)
    have hstep : apply_deltas m (p :: t) errc errv =
        apply_deltas m t (errc.set p.1 (errc.getD p.1 0 + p.2))
          (((m.constraints.getD p.1 default).scope).foldl
            (fun ev u => ev.set u (ev.getD u 0 + p.2)) errv) := by
      rw [apply_deltas, apply_deltas, List.foldl_cons]
    rw [hstep]
    have hscope_len : ∀ u ∈ (m.constraints.getD p.1 default).scope, u < errv.length :=
      fun u hu => hv ▸ hscope.2 u hu
    obtain ⟨g1, g2, g3, g4⟩ := ih (errc.set p.1 (errc.getD p.1 0 + p.2))
      (((m.constraints.getD p.1 default).scope).foldl
        (fun ev u => ev.set u (ev.getD u 0 + p.2)) errv)
      (fun x hx => hmem x (List.mem_cons_of_mem _ hx))
      (by rw [List.length_set, hc])
      (by rw [foldl_add_at_length, hv])
      (by
        intro u hu
        rw [foldl_add_at_getD hscope.1 hscope_len u, hinv u hu,
          sumIdx_set p.2 hp' (matrix_var_ctr_nodup m u)]
        congr 1
        by_cases hmem2 : u ∈ (m.constraints.getD p.1 default).scope
        · rw [if_pos hmem2, if_pos ((matrix_var_ctr_mem m u p.1).mpr ⟨hp, hmem2⟩)]
        · rw [if_neg hmem2, if_neg (fun hin =>
            hmem2 ((matrix_var_ctr_mem m u p.1).mp hin).2)])
    refine ⟨g1, g2, ?_, g4⟩
    rw [g3, sum_set_add p.2 hp']
    simp
    ring

theorem apply_local_changes_fields (m : Model) (st : State) (v : Nat) (x mc : Int)
    (ds : List Int) :
    (apply_local_changes m st v x mc ds).vars = st.vars.set v x ∧
    (apply_local_changes m st v x mc ds).current_sat_error = st.current_sat_error + mc ∧
    (apply_local_changes m st v x mc ds).error_constraints =
      (apply_deltas m ((matrix_var_ctr m v).zip ds) st.error_constraints
        st.error_variables).1 ∧
    (apply_local_changes m st v x mc ds).error_variables =
      (apply_deltas m ((matrix_var_ctr m v).zip ds) st.error_constraints
        st.error_variables).2 ∧
    (apply_local_changes m st v x mc ds).weak_tabu_list = st.weak_tabu_list := by
  unfold apply_local_changes
  dsimp only
  split <;> exact ⟨rfl, rfl, rfl, rfl, rfl⟩

theorem apply_local_changes_wf_inv (m : Model)
    (h : ∀ c ∈ m.constraints, c.scope.Nodup ∧ ∀ u ∈ c.scope, u < m.nvar)
    (st : State) (hst : WfState m st) (hinv : Inv m st) (v : Nat) (x : Int)
    (ds : List Int) (hlen : ds.length = (matrix_var_ctr m v).length) :
    WfState m (apply_local_changes m st v x ds.sum ds) ∧
    Inv m (apply_local_changes m st v x ds.sum ds) := by
  obtain ⟨hveclen, hclen, hvlen⟩ := hst
  obtain ⟨hp1, hp2⟩ := hinv
  obtain ⟨f1, f2, f3, f4, f5⟩ := apply_local_changes_fields m st v x ds.sum ds
  have hzip_mem : ∀ p ∈ (matrix_var_ctr m v).zip ds, p.1 < m.constraints.length :=
    fun p hp => ((matrix_var_ctr_mem m v p.1).mp (List.of_mem_zip hp).1).1
  have hsnd : ((matrix_var_ctr m v).zip ds).map Prod.snd = ds :=
    List.map_snd_zip _ _ (le_of_eq hlen)
  obtain ⟨g1, g2, g3, g4⟩ := apply_deltas_spec m h ((matrix_var_ctr m v).zip ds)
    st.error_constraints st.error_variables hzip_mem hclen hvlen hp2
  constructor
  · exact ⟨by rw [f1, List.length_set, hveclen], by rw [f3]; exact g1,
      by rw [f4]; exact g2⟩
  · constructor
    · rw [f2, f3, g3, hsnd, hp1]
    · intro u hu
      rw [f4, f3]
      exact g4 u hu

set_option maxHeartbeats 1000000 in
theorem step_wf_inv (m : Model) (hm : WfModel m) (st : State) (tp : Tape)
    (hst : WfState m st) (hinv : Inv m st) :
    WfState m (step m st tp).1 ∧ Inv m (step m st tp).1 := by
  obtain ⟨hn, hsc, hdom⟩ := hm
  have hwl : compute_worst_variables m st ≠ [] :=
    compute_worst_variables_ne_nil m st hst.2.2 hn
  have hvlt : pick (compute_worst_variables m st) (draw tp).1 < m.nvar :=
    ((compute_worst_variables_mem m st _).mp (pick_mem _ hwl)).1
  have hdomne : m.domains.getD (pick (compute_worst_variables m st) (draw tp).1) [] ≠ [] :=
    hdom _ (getD_mem _ hvlt)
  obtain ⟨q, hq2, hqne, hqmem, hqmin⟩ :=
    min_scan_spec (fun x => (delta_list m st.vars
      (pick (compute_worst_variables m st) (draw tp).1) x).sum) hdomne
  simp only [step, select_candidates]
  set v := pick (compute_worst_variables m st) (draw tp).1 with hv
  set dom := m.domains.getD v [] with hdm
  set sel := min_scan (fun x => (delta_list m st.vars v x).sum) dom with hsel
  have huntop : sel.2.untop' 0 = q := by rw [hq2]; rfl
  have happly : ∀ st' : State, WfState m st' → Inv m st' → ∀ t' : Nat,
      WfState m (apply_local_changes m st' v (pick sel.1 t') (sel.2.untop' 0)
        (delta_list m st.vars v (pick sel.1 t'))) ∧
      Inv m (apply_local_changes m st' v (pick sel.1 t') (sel.2.untop' 0)
        (delta_list m st.vars v (pick sel.1 t'))) := by
    intro st' hst' hinv' t'
    have hsum : (delta_list m st.vars v (pick sel.1 t')).sum = q :=
      (hqmem _ (pick_mem _ hqne)).2
    rw [huntop, ← hsum]
    exact apply_local_changes_wf_inv m hsc st' hst' hinv' v _ _
      (by rw [delta_list, List.length_map])
  split_ifs with h1 h2 h3 h4 h5 h6 h7 h8
  · exact ⟨⟨hst.1, hst.2.1, hst.2.2⟩, hinv.1, hinv.2⟩
  · exact ⟨⟨hst.1, hst.2.1, hst.2.2⟩, hinv.1, hinv.2⟩
  · refine happly _ ?_ ?_ _
    · refine (restart_wf_inv m _ _ ?_).1
      exact hst.1
    · refine (restart_wf_inv m _ _ ?_).2
      exact hst.1
  · exact ⟨⟨hst.1, hst.2.1, hst.2.2⟩, hinv.1, hinv.2⟩
  · refine happly _ ?_ ?_ _
    · refine (restart_wf_inv m _ _ ?_).1
      exact hst.1
    · refine (restart_wf_inv m _ _ ?_).2
      exact hst.1
  · refine happly _ ?_ ?_ _
    · refine (restart_wf_inv m _ _ ?_).1
      exact hst.1
    · refine (restart_wf_inv m _ _ ?_).2
      exact hst.1
  · exact happly st hst hinv _
  · exact happly st hst hinv _
  · refine (restart_wf_inv m st _ ?_)
    exact hst.1

theorem set_initial_configuration_weak_tabu (m : Model) (st : State) (s : Int)
    (tp : Tape) :
    (set_initial_configuration m st s tp).1.weak_tabu_list = st.weak_tabu_list := by
  unfold set_initial_configuration
  split
  · exact (monte_carlo_fields m st tp).2
  · exact (sampling_loop_fields m _ st tp ⊤ _).2.1

theorem restart_weak_tabu (m : Model) (st : State) (tp : Tape) :
    (restart m st tp).1.weak_tabu_list = List.replicate m.nvar 0 := by
  unfold restart
  dsimp only
  split
  · exact set_initial_configuration_weak_tabu m _ 10 tp
  · rfl

set_option maxHeartbeats 1000000 in
theorem step_weak_tabu (m : Model) (st : State) (tp : Tape) :
    (step m st tp).1.weak_tabu_list = st.weak_tabu_list ∨
    (step m st tp).1.weak_tabu_list = List.replicate m.nvar 0 := by
  simp only [step, select_candidates]
  split_ifs
  · exact Or.inl rfl
  · exact Or.inl rfl
  · refine Or.inr ?_
    rw [(apply_local_changes_fields m _ _ _ _ _).2.2.2.2]
    exact restart_weak_tabu m _ _
  · exact Or.inl rfl
  · refine Or.inr ?_
    rw [(apply_local_changes_fields m _ _ _ _ _).2.2.2.2]
    exact restart_weak_tabu m _ _
  · refine Or.inr ?_
    rw [(apply_local_changes_fields m _ _ _ _ _).2.2.2.2]
    exact restart_weak_tabu m _ _
  · exact Or.inl (apply_local_changes_fields m st _ _ _ _).2.2.2.2
  · exact Or.inl (apply_local_changes_fields m st _ _ _ _).2.2.2.2
  · exact Or.inr (restart_weak_tabu m st _)

theorem decay_weak_tabu_list_eq (l : List Int) (h : ∀ t ∈ l, 0 ≤ t) :
    GhostV2.decay_weak_tabu_list l = l.map (fun t => max (t - 1) 0) := by
  unfold GhostV2.decay_weak_tabu_list
  apply List.map_congr_left
  intro t ht
  have := h t ht
  by_cases h0 : t = 0
  · simp [h0]
  · simp only [h0, if_false]
    omega

/-- C2.  At every stable point of the outer loop — immediately after
`restart()` and immediately after any outer-loop iteration, so in particular
after each applied move — P1 and P2 hold: `_current_sat_error` equals the sum
of `_error_constraints`, and every `_error_variables[v]` equals the sum of
`_error_constraints[i]` over exactly the constraints `i` whose scope contains
`v` (the constraints of `_matrix_var_ctr[v]`). -/
theorem stable_points_satisfy_error_invariants (m : Model) (hm : WfModel m)
    (st : State) (tp : Tape) (hst : WfState m st) :
    (Inv m (restart m st tp).1 ∧ WfState m (restart m st tp).1) ∧
    (Inv m st → Inv m (step m st tp).1 ∧ WfState m (step m st tp).1) := by
  refine ⟨⟨(restart_wf_inv m st tp hst.1).2, (restart_wf_inv m st tp hst.1).1⟩, ?_⟩
  intro hinv
  exact ⟨(step_wf_inv m hm st tp hst hinv).2, (step_wf_inv m hm st tp hst hinv).1⟩

/-- Witness for C2 at a concrete instance. -/
theorem stable_points_invariants_witness :
    WfModel cex_model ∧ WfState cex_model (initial_state cex_model [0]) ∧
    Inv cex_model (restart cex_model (initial_state cex_model [0]) cex_run_tape).1 :=
  ⟨by decide, by decide,
    ((stable_points_satisfy_error_invariants cex_model (by decide)
      (initial_state cex_model [0]) cex_run_tape (by decide)).1).1⟩

/-- C3 (code bug, failing run).  On `cex_model`, iteration 1 applies an
improving move, leaving `_best_sat_error = 1` (equal to the observed
`_current_sat_error`); iteration 2 takes the `min_conflict > 0` branch, whose
`restart()` resets `_best_sat_error` to the `DBL_MAX` sentinel (`⊤`): after
the restart `best_sat_error` strictly exceeds both the previously attained
best `1` and every previously observed `current_sat_error`, so it is not
non-increasing across the run. -/
theorem best_sat_error_reset_by_restart :
    (solve_loop cex_model 1 cex_start).1.best_sat_error = ((1 : Int) : WithTop Int) ∧
    (solve_loop cex_model 1 cex_start).1.current_sat_error = 1 ∧
    step_branch cex_model (solve_loop cex_model 1 cex_start).1
      (solve_loop cex_model 1 cex_start).2 = StepBranch.restart_local_minimum ∧
    (solve_loop cex_model 2 cex_start).1.best_sat_error = (⊤ : WithTop Int) := by
  decide

/-- C4 (code bug, failing input).  On `plateau_model` in the stable state
`plateau_state`, the iteration takes the plateau coin-flip restart branch
(`StepBranch.restart_plateau`); `restart()` samples the configuration `[0]`
and recomputes exact caches, but — the branch not being followed by
`continue` — the pending candidate move is applied anyway: the variable is
set to the pre-restart candidate `1` and the stale memoized deltas `+1, -1`
are replayed into `_error_constraints`, which ends at `[2, 0]` although the
true constraint errors of the final assignment are `[1, 1]` (P3 broken). -/
theorem plateau_restart_still_applies_move :
    step_branch plateau_model plateau_state plateau_tape =
      StepBranch.restart_plateau ∧
    (restart plateau_model plateau_state (List.replicate 10 0)).1.vars = [0] ∧
    (step plateau_model plateau_state plateau_tape).1.vars = [1] ∧
    (step plateau_model plateau_state plateau_tape).1.error_constraints = [2, 0] ∧
    compute_constraints_errors plateau_model
      (step plateau_model plateau_state plateau_tape).1.vars = [1, 1] := by
  decide

/-- C5 (code bug, failing input).  `set_initial_configuration(2)` on
`typo_model` with a tape drawing the samples `[1]` (cost 1) then `[5]`
(cost 5): because the typo line never updates the tracked best error, the
guard `best_sat_error > current_sat_error` accepts every sample, and the
function leaves the variables holding the last sample `[5]` (cost 5) instead
of the lowest-cost sample `[1]` (cost 1). -/
theorem set_initial_configuration_keeps_last_sample :
    (set_initial_configuration typo_model (initial_state typo_model [1]) 2
      [0, 1]).1.vars = [5] ∧
    (monte_carlo_sampling typo_model (initial_state typo_model [1]) [0, 1]).1.vars
      = [1] ∧
    call_error typo_model [1] 0 = 1 ∧
    call_error typo_model [5] 0 = 5 := by
  decide

/-- C7.  `compute_worst_variables()` returns exactly the variable ids whose
`_error_variables` entry equals the maximum entry; the returned list is never
empty, and when the maximum is 0 (and the entries are the non-negative error
sums) every variable is returned. -/
theorem compute_worst_variables_spec (m : Model) (st : State)
    (h : st.error_variables.length = m.nvar) (hn : 0 < m.nvar) :
    (∀ v, v ∈ compute_worst_variables m st ↔
      (v < m.nvar ∧ st.error_variables.getD v 0 = max_element st.error_variables)) ∧
    compute_worst_variables m st ≠ [] ∧
    ((∀ e ∈ st.error_variables, 0 ≤ e) → max_element st.error_variables = 0 →
      compute_worst_variables m st = List.range m.nvar) := by
  refine ⟨compute_worst_variables_mem m st,
    compute_worst_variables_ne_nil m st h hn, ?_⟩
  intro hpos hmax
  unfold compute_worst_variables
  rw [List.filter_eq_self]
  intro v hvr
  have hvlt : v < st.error_variables.length := h ▸ List.mem_range.mp hvr
  have hle : st.error_variables.getD v 0 ≤ max_element st.error_variables :=
    le_max_element _ (getD_mem 0 hvlt)
  have hge : 0 ≤ st.error_variables.getD v 0 := hpos _ (getD_mem 0 hvlt)
  rw [decide_eq_true_iff, hmax]
  omega

/-- Witness for C7 at a concrete instance (all error sums 0). -/
theorem compute_worst_variables_witness :
    0 < cex_model.nvar ∧
    compute_worst_variables cex_model (initial_state cex_model [0]) =
      List.range cex_model.nvar :=
  ⟨by decide,
    (compute_worst_variables_spec cex_model (initial_state cex_model [0])
      (by decide) (by decide)).2.2 (by decide) (by decide)⟩

/-- C8 (counterexample).  Iteration 1 of the `cex_model` run is an improving
move (`_best_sat_error` drops from the sentinel to 1), yet the selected
variable's weak-tabu counter stays 0 instead of receiving
`tabu_time_selected = max(1, max(1, n/2)/2) = 1`, and no counter is decayed:
the current `solve` loop neither writes nor decays `_weak_tabu_list`. -/
theorem improving_move_writes_no_tabu :
    (solve_loop cex_model 1 cex_start).1.best_sat_error = ((1 : Int) : WithTop Int) ∧
    cex_start.1.weak_tabu_list = [0] ∧
    (solve_loop cex_model 1 cex_start).1.weak_tabu_list = [0] ∧
    tabu_time_selected cex_model.nvar = 1 := by
  decide

/-- C8 (amended).  In the current engine (src/unnamed/part_000) an outer-loop
iteration never touches `_weak_tabu_list` except through `restart()`, which
zeroes it — so the counters stay non-negative; the per-iteration decay and
the tabu-time writes live in the older satisfaction loop
(src/unnamed/part_002): its `decay_weak_tabu_list` replaces every
non-negative counter `t` by `max(t-1, 0)` (decay by one, saturating at 0,
hence non-negative), and its post-move write stores
`tabu_time_selected = max(1, tabu_time_local_min/2)` on improving moves and
`tabu_time_local_min = max(1, n/2)` on local minima, both positive. -/
theorem weak_tabu_decay_and_bounds (m : Model) (st : State) (tp : Tape)
    (l : List Int) (h : ∀ t ∈ l, 0 ≤ t) :
    ((step m st tp).1.weak_tabu_list = st.weak_tabu_list ∨
      (step m st tp).1.weak_tabu_list = List.replicate m.nvar 0) ∧
    (restart m st tp).1.weak_tabu_list = List.replicate m.nvar 0 ∧
    GhostV2.decay_weak_tabu_list l = l.map (fun t => max (t - 1) 0) ∧
    (∀ t ∈ GhostV2.decay_weak_tabu_list l, 0 ≤ t) ∧
    1 ≤ tabu_time_selected m.nvar ∧
    1 ≤ tabu_time_local_min m.nvar ∧
    ∀ (tabu : List Int) (v : Nat) (b : Bool),
      GhostV2.weak_tabu_write tabu v m.nvar b =
        tabu.set v (if b then tabu_time_selected m.nvar else tabu_time_local_min m.nvar) := by
  refine ⟨step_weak_tabu m st tp, restart_weak_tabu m st tp,
    decay_weak_tabu_list_eq l h, ?_, le_max_left _ _, le_max_left _ _,
    fun tabu v b => rfl⟩
  rw [decay_weak_tabu_list_eq l h]
  intro t ht
  obtain ⟨t0, ht0, rfl⟩ := List.mem_map.mp ht
  exact le_max_right _ _

/-- Witness for the amended C8 at a concrete instance. -/
theorem weak_tabu_decay_witness :
    (∀ t ∈ ([3, 0] : List Int), 0 ≤ t) ∧
    ((step cex_model (initial_state cex_model [0]) []).1.weak_tabu_list =
        (initial_state cex_model [0]).weak_tabu_list ∨
      (step cex_model (initial_state cex_model [0]) []).1.weak_tabu_list =
        List.replicate cex_model.nvar 0) ∧
    GhostV2.decay_weak_tabu_list [3, 0] = [2, 0] :=
  ⟨by decide,
    (weak_tabu_decay_and_bounds cex_model (initial_state cex_model [0]) [] [3, 0]
      (by decide)).1,
    by
      rw [(weak_tabu_decay_and_bounds cex_model (initial_state cex_model [0]) []
        [3, 0] (by decide)).2.2.1]
      decide⟩

end Ghost


namespace GhostV2

theorem swap_variables_swap_variables (vars : Nat → Variable) (i j : Nat) :
    swap_variables (swap_variables vars i j) i j = vars := by
  funext k
  simp only [swap_variables]
  by_cases hki : k = i
  · subst hki
    by_cases hij : j = k <;> simp [hij]
  · by_cases hkj : k = j
    · subst hkj
      simp [hki, fun h : i = k => hki h.symm]
    · simp [hki, hkj]

/-- C6 (counterexample).  `simulate_local_move_cost` — the comment in the
source reads `NO VALUE BACKED-UP!` — leaves the variable holding the
simulated value 9 instead of the pre-call value 3: the simulation is not
free of net side effects. -/
theorem simulate_local_move_cost_mutates :
    ((simulate_local_move_cost frame_model frame_vars 0 9 [3] 3).2 0).value = 9 ∧
    (frame_vars 0).value = 3 ∧
    (simulate_local_move_cost frame_model frame_vars 0 9 [3] 3).2 ≠ frame_vars := by
  refine ⟨rfl, rfl, fun h => ?_⟩
  have h0 : (9 : Int) = 3 := congrArg Variable.value (congrFun h 0)
  exact absurd h0 (by decide)

/-- C6 (amended).  `simulate_permutation_cost` swaps back before returning,
so it has no net effect on the variable state; `simulate_local_move_cost`
performs no restore: its net effect is exactly `set_value vars v x` (the
variable keeps the simulated value, which the caller `local_move` later
overwrites with its chosen value). -/
theorem simulate_cost_frame_effects (m : Model) (vars : Nat → Variable)
    (w o v : Nat) (x : Int) (cc : List Int) (cs : Int) :
    (simulate_permutation_cost m vars w o cc cs).2 = vars ∧
    (simulate_local_move_cost m vars v x cc cs).2 = set_value vars v x :=
  ⟨swap_variables_swap_variables vars w o, rfl⟩

end GhostV2

theorem foldl_preserve_mem {α β : Type _} {P : α → Prop} {f : α → β → α}
    {l : List β} {a : α} (h : ∀ x b, b ∈ l → P x → P (f x b)) (ha : P a) :
    P (l.foldl f a) := by
  induction l generalizing a with
  | nil => exact ha
  | cons b t ih =>
    exact ih (fun x c hc hx => h x c (List.mem_cons_of_mem _ hc) hx)
      (h a b (List.mem_cons_self _ _) ha)

theorem pairList_mem {n : Nat} {p : Nat × Nat} (h : p ∈ pairList n) :
    p.1 < n ∧ p.2 < n := by
  simp only [pairList, List.mem_flatMap, List.mem_map] at h
  obtain ⟨i, hi, j, hj, rfl⟩ := h
  exact ⟨List.mem_range.mp hi, List.mem_range.mp (List.mem_of_mem_drop hj)⟩

namespace GhostV2

theorem values_of_swap_perm (n : Nat) (vars : Nat → Variable) {i j : Nat}
    (hi : i < n) (hj : j < n) :
    (values_of n (swap_variables vars i j)).Perm (values_of n vars) := by
  have hfun : values_of n (swap_variables vars i j) =
      ((List.range n).map (Equiv.swap i j)).map (fun k => (vars k).value) := by
    rw [List.map_map]
    apply List.map_congr_left
    intro k _
    simp only [Function.comp, swap_variables, Equiv.swap_apply_def]
    by_cases h1 : k = i
    · simp [h1]
    · by_cases h2 : k = j
      · simp only [h1, h2, if_false, if_true]
        split <;> rfl
      · simp [h1, h2]
  rw [hfun, values_of]
  refine List.Perm.map _ ?_
  apply List.perm_of_nodup_nodup_toFinset_eq
  · exact (List.nodup_range n).map (Equiv.injective _)
  · exact List.nodup_range n
  · ext a
    simp only [List.mem_toFinset, List.mem_map, List.mem_range]
    constructor
    · rintro ⟨b, hb, rfl⟩
      rw [Equiv.swap_apply_def]
      by_cases h1 : b = i
      · simp [h1, hj]
      · by_cases h2 : b = j
        · simp only [h1, h2, if_false, if_true]
          split
          · exact hj
          · exact hi
        · simp [h1, h2, hb]
    · intro ha
      refine ⟨Equiv.swap i j a, ?_, Equiv.swap_apply_self i j a⟩
      rw [Equiv.swap_apply_def]
      by_cases h1 : a = i
      · simp [h1, hj]
      · by_cases h2 : a = j
        · simp only [h1, h2, if_false, if_true]
          split
          · exact hj
          · exact hi
        · simp [h1, h2, ha]

theorem random_permutations_v2_perm (m : Model) (vars : Nat → Variable) (tp : Tape) :
    (values_of m.nvar (random_permutations_v2 m vars tp).1).Perm
      (values_of m.nvar vars) := by
  unfold random_permutations_v2
  refine foldl_preserve_mem
    (P := fun acc : (Nat → Variable) × Tape =>
      (values_of m.nvar acc.1).Perm (values_of m.nvar vars))
    ?_ (List.Perm.refl _)
  intro x p hp hx
  obtain ⟨h1, h2⟩ := pairList_mem hp
  dsimp only
  split
  · exact (values_of_swap_perm m.nvar x.1 h1 h2).trans hx
  · exact hx

theorem permutation_move_scan (m : Model) (vars : Nat → Variable) (v : Nat)
    (cc : List Int) (cs : Int) :
    ∀ (l : List Nat) (acc2 : List Nat × WithTop Int),
      (l.foldl (fun (acc : (Nat → Variable) × (List Nat × WithTop Int)) o =>
        let r := simulate_permutation_cost m acc.1 v o cc cs
        (r.2,
         if acc.2.2 > (r.1 : WithTop Int) then ([o], (r.1 : WithTop Int))
         else if acc.2.2 = (r.1 : WithTop Int) then (acc.2.1 ++ [o], acc.2.2)
         else acc.2)) (vars, acc2)) =
      (vars, l.foldl (fun acc o =>
        if acc.2 > ((simulate_permutation_cost m vars v o cc cs).1 : WithTop Int) then
          ([o], ((simulate_permutation_cost m vars v o cc cs).1 : WithTop Int))
        else if acc.2 = ((simulate_permutation_cost m vars v o cc cs).1 : WithTop Int)
          then (acc.1 ++ [o], acc.2)
        else acc) acc2) := by
  intro l
  induction l with
  | nil => intro acc2; rfl
  | cons o t ih =>
    intro acc2
    rw [List.foldl_cons, List.foldl_cons]
    have hr2 : (simulate_permutation_cost m vars v o cc cs).2 = vars :=
      swap_variables_swap_variables vars v o
    dsimp only
    rw [hr2]
    exact ih _

theorem permutation_move_scan_eq (m : Model) (vars : Nat → Variable) (v : Nat)
    (cc : List Int) (cs : Int) (l : List Nat) :
    (l.foldl (fun (acc : (Nat → Variable) × (List Nat × WithTop Int)) o =>
      let r := simulate_permutation_cost m acc.1 v o cc cs
      (r.2,
       if acc.2.2 > (r.1 : WithTop Int) then ([o], (r.1 : WithTop Int))
       else if acc.2.2 = (r.1 : WithTop Int) then (acc.2.1 ++ [o], acc.2.2)
       else acc.2)) (vars, ([], ⊤))) =
    (vars, min_scan (fun o => (simulate_permutation_cost m vars v o cc cs).1) l) := by
  rw [permutation_move_scan m vars v cc cs l ([], ⊤)]
  rfl

theorem permutation_move_spec (m : Model) (vars : Nat → Variable) (v : Nat)
    (cc : List Int) (cs : Int) (tp : Tape) (hn : 2 ≤ m.nvar) :
    ∃ u, u < m.nvar ∧
      (permutation_move m vars v cc cs tp).1 = swap_variables vars v u := by
  have hothers : ((List.range m.nvar).filter (fun o => decide (o ≠ v))) ≠ [] := by
    by_cases hv0 : v = 0
    · refine List.ne_nil_of_mem (a := 1) ?_
      simp only [List.mem_filter, List.mem_range, decide_eq_true_iff, hv0]
      exact ⟨by omega, by omega⟩
    · refine List.ne_nil_of_mem (a := 0) ?_
      simp only [List.mem_filter, List.mem_range, decide_eq_true_iff]
      exact ⟨by omega, fun h => hv0 h.symm⟩
  obtain ⟨q, hq, hcne, hcm, hcmin⟩ := min_scan_spec
    (fun o => (simulate_permutation_cost m vars v o cc cs).1) hothers
  simp only [permutation_move]
  rw [permutation_move_scan_eq m vars v cc cs]
  refine ⟨_, ?_, rfl⟩
  have hmem : (if (min_scan (fun o => (simulate_permutation_cost m vars v o cc cs).1)
        ((List.range m.nvar).filter (fun o => decide (o ≠ v)))).1.length > 1 then
      pick (min_scan (fun o => (simulate_permutation_cost m vars v o cc cs).1)
        ((List.range m.nvar).filter (fun o => decide (o ≠ v)))).1 (draw tp).1
    else (min_scan (fun o => (simulate_permutation_cost m vars v o cc cs).1)
        ((List.range m.nvar).filter (fun o => decide (o ≠ v)))).1.getD 0 0) ∈
      (min_scan (fun o => (simulate_permutation_cost m vars v o cc cs).1)
        ((List.range m.nvar).filter (fun o => decide (o ≠ v)))).1 := by
    split
    · exact pick_mem _ hcne
    · exact getD_mem _ (List.length_pos.mpr hcne)
  have hin := (hcm _ hmem).1
  simp only [List.mem_filter, List.mem_range] at hin
  exact hin.1

theorem permutation_run_perm (m : Model) (hn : 2 ≤ m.nvar) (k : Nat) :
    ∀ (vars : Nat → Variable) (tp : Tape),
      (values_of m.nvar (permutation_run m k vars tp)).Perm
        (values_of m.nvar vars) := by
  induction k with
  | zero => exact fun vars tp => List.Perm.refl _
  | succ k ih =>
    intro vars tp
    rw [permutation_run]
    obtain ⟨u, hu, he⟩ := permutation_move_spec m vars ((draw tp).1 % m.nvar)
      ((List.range m.constraints.length).map (fun i => call_cost m i vars))
      ((List.range m.constraints.length).map (fun i => call_cost m i vars)).sum
      (draw tp).2 hn
    refine (ih _ _).trans ?_
    rw [he]
    exact values_of_swap_perm m.nvar vars (Nat.mod_lt _ (by omega)) hu

theorem values_of_set_values (n : Nat) (vars : Nat → Variable) (vals : List Int)
    (h : vals.length = n) : values_of n (set_values n vars vals) = vals := by
  apply List.ext_getElem
  · simp [values_of, h]
  · intro i h1 h2
    have hin : i < n := by simpa [values_of] using h1
    simp only [values_of, List.getElem_map, List.getElem_range, set_values,
      if_pos hin]
    simp [List.getD_eq_getElem?_getD, List.getElem?_eq_getElem h2]

theorem sampling_loop_v2_spec (m : Model) (w : List Int) (k : Nat) :
    ∀ (vars : Nat → Variable) (tp : Tape) (b : WithTop Int) (bv : List Int),
      (values_of m.nvar vars).Perm w →
      ((bv.length = m.nvar ∧ bv.Perm w) ∨ (b = ⊤ ∧ 1 ≤ k)) →
      (values_of m.nvar (sampling_loop_v2 m k vars tp b bv).1).Perm w ∧
      (sampling_loop_v2 m k vars tp b bv).2.2.length = m.nvar ∧
      (sampling_loop_v2 m k vars tp b bv).2.2.Perm w := by
  induction k with
  | zero =>
    intro vars tp b bv hvars hbv
    rcases hbv with ⟨h1, h2⟩ | ⟨_, hk⟩
    · exact ⟨hvars, h1, h2⟩
    · omega
  | succ n ih =>
    intro vars tp b bv hvars hbv
    rw [sampling_loop_v2]
    have hsw : (values_of m.nvar (random_permutations_v2 m vars tp).1).Perm w :=
      (random_permutations_v2_perm m vars tp).trans hvars
    have hupdlen : (update_better_configuration m.nvar
        (random_permutations_v2 m vars tp).1).length = m.nvar := by
      simp [update_better_configuration]
    have hupdperm : (update_better_configuration m.nvar
        (random_permutations_v2 m vars tp).1).Perm w := hsw
    split_ifs with hc hupd hupd2
    · exact ⟨hsw, hupdlen, hupdperm⟩
    · rcases hbv with ⟨h1, h2⟩ | ⟨hb, _⟩
      · exact ⟨hsw, h1, h2⟩
      · exact absurd (hb ▸ WithTop.coe_lt_top _) hupd
    · exact ih _ _ _ _ hsw (Or.inl ⟨hupdlen, hupdperm⟩)
    · rcases hbv with ⟨h1, h2⟩ | ⟨hb, _⟩
      · exact ih _ _ _ _ hsw (Or.inl ⟨h1, h2⟩)
      · exact absurd (hb ▸ WithTop.coe_lt_top _) hupd2

theorem set_initial_configuration_perm_values (m : Model) (vars : Nat → Variable)
    (s : Int) (tp : Tape) :
    (values_of m.nvar (set_initial_configuration_perm m vars s tp).1).Perm
      (values_of m.nvar vars) := by
  unfold set_initial_configuration_perm
  obtain ⟨h1, h2, h3⟩ := sampling_loop_v2_spec m (values_of m.nvar vars)
    (max 1 s).toNat vars tp ⊤ (List.replicate m.nvar 0) (List.Perm.refl _)
    (Or.inr ⟨rfl, by omega⟩)
  dsimp only
  rw [values_of_set_values _ _ _ h2]
  exact h3

/-- C9.  In permutation mode the multiset of values held by the variables is
invariant for the whole run: the initial sampling (`random_permutations`
iterated by `set_initial_configuration`, then the restore of the best
snapshot) and every applied `permutation_move` only swap `(index, value)`
pairs between two variables, so after the sampling and any number `k` of
applied moves the assignment is a permutation of the initial values (taking
`k` to each prefix length gives the invariant at all times). -/
theorem permutation_mode_preserves_value_multiset (m : Model)
    (vars : Nat → Variable) (k : Nat) (tp : Tape) (hn : 2 ≤ m.nvar) :
    (values_of m.nvar (permutation_epoch m vars k tp)).Perm
      (values_of m.nvar vars) := by
  unfold permutation_epoch
  exact (permutation_run_perm m hn k _ _).trans
    (set_initial_configuration_perm_values m vars 10 tp)

/-- Witness for C9 at a concrete two-variable instance. -/
theorem permutation_epoch_witness :
    2 ≤ perm_model.nvar ∧
    (values_of perm_model.nvar (permutation_epoch perm_model perm_vars 1
      [1, 0, 1, 1, 0, 0, 1, 0, 1, 1, 0, 1, 0])).Perm
      (values_of perm_model.nvar perm_vars) :=
  ⟨by decide, permutation_mode_preserves_value_multiset perm_model perm_vars 1
    [1, 0, 1, 1, 0, 0, 1, 0, 1, 1, 0, 1, 0] (by decide)⟩

end GhostV2

namespace GhostObj

theorem set_getD_self {l : List Int} {v : Nat} (h : v < l.length) :
    l.set v (l.getD v 0) = l := by
  apply List.ext_getElem?
  intro i
  by_cases hiv : i = v
  · subst hiv
    simp [List.getElem?_set_self', List.getElem?_eq_getElem h,
      List.getD_eq_getElem?_getD]
  · simp [List.getElem?_set_ne (fun hh => hiv hh.symm)]

theorem ehv_go (cost : List Int → Int) (vars : List Int) (v : Nat) (backup : Int) :
    ∀ (l : List Int) (cur : List Int) (acc2 : List Int × WithTop Int),
      (∀ x : Int, cur.set v x = vars.set v x) →
      cur.set v backup = vars.set v backup →
      ((l.foldl (fun (acc : List Int × (List Int × WithTop Int)) x =>
          let vs := acc.1.set v x
          let simulatedCost := cost vs
          (vs,
           if acc.2.2 > (simulatedCost : WithTop Int) then
             ([x], (simulatedCost : WithTop Int))
           else if acc.2.2 = (simulatedCost : WithTop Int) then
             (acc.2.1 ++ [x], acc.2.2)
           else acc.2)) (cur, acc2)).1.set v backup = vars.set v backup) ∧
      (l.foldl (fun (acc : List Int × (List Int × WithTop Int)) x =>
          let vs := acc.1.set v x
          let simulatedCost := cost vs
          (vs,
           if acc.2.2 > (simulatedCost : WithTop Int) then
             ([x], (simulatedCost : WithTop Int))
           else if acc.2.2 = (simulatedCost : WithTop Int) then
             (acc.2.1 ++ [x], acc.2.2)
           else acc.2)) (cur, acc2)).2 =
        l.foldl (fun acc x =>
          if acc.2 > ((cost (vars.set v x) : Int) : WithTop Int) then
            ([x], ((cost (vars.set v x) : Int) : WithTop Int))
          else if acc.2 = ((cost (vars.set v x) : Int) : WithTop Int) then
            (acc.1 ++ [x], acc.2)
          else acc) acc2 := by
  intro l
  induction l with
  | nil =>
    intro cur acc2 hq hr
    exact ⟨hr, rfl⟩
  | cons x t ih =>
    intro cur acc2 hq hr
    rw [List.foldl_cons, List.foldl_cons]
    dsimp only
    rw [hq x]
    exact ih (vars.set v x) _ (fun y => List.set_set x y vars v)
      (List.set_set x backup vars v)

/-- C10.  The default objective tie-break
`Objective::expert_heuristic_value(variables, var, possible_values)` leaves
the assignment unchanged (the variable's value is backed up and restored
before returning) and returns a value drawn from the non-empty candidate
list, one minimizing the objective cost over the candidates. -/
theorem expert_heuristic_value_spec (cost : List Int → Int) (vars : List Int)
    (v : Nat) (pvs : List Int) (t : Nat) (hv : v < vars.length) (hne : pvs ≠ []) :
    (expert_heuristic_value cost vars v pvs t).2 = vars ∧
    (expert_heuristic_value cost vars v pvs t).1 ∈ pvs ∧
    ∀ y ∈ pvs, cost (vars.set v (expert_heuristic_value cost vars v pvs t).1) ≤
      cost (vars.set v y) := by
  obtain ⟨hg, hs⟩ := ehv_go cost vars v (vars.getD v 0) pvs vars ([], ⊤)
    (fun x => rfl) rfl
  obtain ⟨q, hq, hcne, hcm, hcmin⟩ := min_scan_spec
    (fun x => cost (vars.set v x)) hne
  have hms : (pvs.foldl (fun (acc : List Int × WithTop Int) x =>
      if acc.2 > ((cost (vars.set v x) : Int) : WithTop Int) then
        ([x], ((cost (vars.set v x) : Int) : WithTop Int))
      else if acc.2 = ((cost (vars.set v x) : Int) : WithTop Int) then
        (acc.1 ++ [x], acc.2)
      else acc) ([], ⊤)) = min_scan (fun x => cost (vars.set v x)) pvs := rfl
  simp only [expert_heuristic_value]
  rw [hs, hms]
  refine ⟨hg.trans (set_getD_self hv), (hcm _ (pick_mem t hcne)).1, ?_⟩
  intro y hy
  rw [(hcm _ (pick_mem t hcne)).2]
  exact hcmin y hy

/-- Witness for C10 at a concrete instance: cost is the first value, so the
tie-break must return the minimizer 2 of the candidates and restore `[7]`. -/
theorem expert_heuristic_value_witness :
    (0 : Nat) < ([7] : List Int).length ∧ ([5, 2, 9] : List Int) ≠ [] ∧
    (expert_heuristic_value (fun l => l.getD 0 0) [7] 0 [5, 2, 9] 0).2 = [7] ∧
    (expert_heuristic_value (fun l => l.getD 0 0) [7] 0 [5, 2, 9] 0).1 ∈
      ([5, 2, 9] : List Int) :=
  ⟨by decide, by decide,
    (expert_heuristic_value_spec (fun l => l.getD 0 0) [7] 0 [5, 2, 9] 0
      (by decide) (by decide)).1,
    (expert_heuristic_value_spec (fun l => l.getD 0 0) [7] 0 [5, 2, 9] 0
      (by decide) (by decide)).2.1⟩

end GhostObj
